import Mathlib

/-!
Shallow embedding of the synapse-memory core (TypeScript, better-sqlite3) and
a verification of its specification.

Modelling conventions:
* SQLite tables are lists of rows in rowid (insertion) order; `SELECT ... LIMIT 1`
  without `ORDER BY` takes the first matching row (`List.find?`), `UPDATE`
  is `List.map` over the rows, `INSERT` is append.
* JavaScript `Array.prototype.sort` is stable (ECMA-262); a call
  `xs.sort((a, b) => b.k - a.k)` is modelled as Mathlib's stable
  `List.insertionSort` with the relation `fun a b => k b ≤ k a`.
* JS numbers are modelled as exact rationals; `Math.log` and the `Date`
  parser are external runtime facilities and are passed in as function
  parameters, as is the SHA-256 digest from node:crypto.
* `string | undefined` is `Option String`; a JS truthiness test `!s` on such
  a value is true for `none` and for `some ""`.
-/

namespace SynapseMemory

/-! ### Stable sorting (model of Array.prototype.sort with a numeric comparator) -/

/-- Decidability of the descending-key comparison relation. -/
instance sortByKeyDescRel {α : Type} {β : Type} [LinearOrder β] (key : α → β) :
    DecidableRel (fun a b : α => key b ≤ key a) :=
  fun a b => inferInstanceAs (Decidable (key b ≤ key a))

/-- Model of `xs.sort((a, b) => b.key - a.key)`: a stable descending sort on
`key`. JS `Array.prototype.sort` is specified to be stable, which is exactly
`List.insertionSort` with the relation `fun a b => key b ≤ key a`. -/
def sortByKeyDesc {α : Type} {β : Type} [LinearOrder β] (key : α → β) (l : List α) : List α :=
  List.insertionSort (fun a b => key b ≤ key a) l

/-- Model of an ascending `ORDER BY key ASC`. -/
def sortByKeyAsc {α : Type} {β : Type} [LinearOrder β] (key : α → β) (l : List α) : List α :=
  List.insertionSort (fun a b => key a ≤ key b) l

theorem sortByKeyDesc_perm {α β : Type} [LinearOrder β] (key : α → β) (l : List α) :
    (sortByKeyDesc key l).Perm l :=
  List.perm_insertionSort _ l

theorem sortByKeyDesc_sorted {α β : Type} [LinearOrder β] (key : α → β) (l : List α) :
    (sortByKeyDesc key l).Sorted (fun a b => key b ≤ key a) := by
  haveI : IsTotal α (fun a b : α => key b ≤ key a) := ⟨fun a b => (le_total (key b) (key a))⟩
  haveI : IsTrans α (fun a b : α => key b ≤ key a) :=
    ⟨fun _ _ _ hab hbc => le_trans hbc hab⟩
  exact List.sorted_insertionSort _ l

/-- Inserting `x` and then filtering on key value `q` either prepends `x`
(when `key x = q`) or leaves the filtered list unchanged. The elements
skipped by `orderedInsert` all have key strictly above `key x`. -/
theorem filter_orderedInsert_key {α β : Type} [LinearOrder β] (key : α → β)
    (x : α) (q : β) :
    ∀ l : List α,
      (List.orderedInsert (fun a b => key b ≤ key a) x l).filter
          (fun a => decide (key a = q)) =
        if key x = q then
          x :: l.filter (fun a => decide (key a = q))
        else l.filter (fun a => decide (key a = q)) := by
  intro l
  induction l with
  | nil =>
    by_cases hx : key x = q <;> simp [List.orderedInsert, List.filter, hx]
  | cons y ys ih =>
    by_cases hyx : key y ≤ key x
    · rw [show List.orderedInsert (fun a b => key b ≤ key a) x (y :: ys) = x :: y :: ys
        from if_pos hyx]
      by_cases hx : key x = q <;>
        by_cases hy : key y = q <;>
          simp [List.filter_cons, hx, hy]
    · rw [show List.orderedInsert (fun a b => key b ≤ key a) x (y :: ys) =
          y :: List.orderedInsert (fun a b => key b ≤ key a) x ys
        from if_neg hyx]
      have hlt : key x < key y := lt_of_not_le hyx
      by_cases hx : key x = q
      · have hy : ¬ key y = q := by
          intro h
          exact absurd (hx ▸ h ▸ hlt) (lt_irrefl _)
        simp [List.filter_cons, hx, hy, ih]
      · by_cases hy : key y = q <;>
          simp [List.filter_cons, hx, hy, ih]

/-- Stability of the modelled JS sort: restricted to any single key value the
sorted list coincides with the input, i.e. ties retain input order. -/
theorem sortByKeyDesc_stable {α β : Type} [LinearOrder β] (key : α → β)
    (l : List α) (q : β) :
    (sortByKeyDesc key l).filter (fun a => decide (key a = q)) =
      l.filter (fun a => decide (key a = q)) := by
  simp only [sortByKeyDesc]
  induction l with
  | nil => rfl
  | cons x xs ih =>
    show (List.orderedInsert _ x (List.insertionSort _ xs)).filter _ = _
    rw [filter_orderedInsert_key]
    by_cases hx : key x = q
    · rw [if_pos hx, ih, List.filter_cons]
      simp [hx]
    · rw [if_neg hx, ih, List.filter_cons]
      simp [hx]

/-! ### Deduplication engine primitives (src/context/deduplication.ts) -/

/-- One step of `content.replace(/\s+/g, ' ')`: each maximal whitespace run
becomes a single space. The flag records whether we are inside a run whose
space has already been emitted. `Char.isWhitespace` models the common (ASCII)
part of the JS `\s` class. -/
def collapseWhitespace : Bool → List Char → List Char
  | _, [] => []
  | prevWS, c :: cs =>
    if c.isWhitespace then
      if prevWS then collapseWhitespace true cs
      else ' ' :: collapseWhitespace true cs
    else c :: collapseWhitespace false cs

/-- Model of `String.prototype.trim`: drop whitespace at both ends. -/
def trimChars (l : List Char) : List Char :=
  ((l.dropWhile Char.isWhitespace).reverse.dropWhile Char.isWhitespace).reverse

/-- `normalizeContent` from deduplication.ts: lowercase, collapse whitespace
runs to one space, trim. `Char.toLower` models the ASCII part of JS
`toLowerCase`. -/
def normalizeContent (content : String) : String :=
  String.mk (trimChars (collapseWhitespace false (content.data.map Char.toLower)))

/-- `computeContentHash` from deduplication.ts: the SHA-256 hex digest of the
normalized content. The digest itself comes from node:crypto, an external
library, so it is a parameter `sha256hex`. -/
def computeContentHash (sha256hex : String → String) (content : String) : String :=
  sha256hex (normalizeContent content)

/-- `levenshteinDistance` from deduplication.ts. The source fills the DP
matrix `matrix[i][j] = distance between the first j chars of a and the first
i chars of b` with the standard recurrence (match, substitution+1,
insertion+1, deletion+1); this is that recurrence written as a recursion
(peeling characters from the front, which computes the same edit distance). -/
def levenshteinDistance : List Char → List Char → Nat
  | [], b => b.length
  | a :: as, [] => (a :: as).length
  | a :: as, b :: bs =>
    if a = b then levenshteinDistance as bs
    else
      min (levenshteinDistance as bs + 1)
        (min (levenshteinDistance (a :: as) bs + 1)
             (levenshteinDistance as (b :: bs) + 1))
termination_by a b => a.length + b.length
decreasing_by all_goals simp +arith [List.length]

theorem levenshteinDistance_le_max (a b : List Char) :
    levenshteinDistance a b ≤ max a.length b.length := by
  induction a, b using levenshteinDistance.induct with
  | case1 b => simp [levenshteinDistance]
  | case2 a as => simp [levenshteinDistance]
  | case3 as b bs ih =>
    simp only [levenshteinDistance, if_pos rfl]
    refine le_trans ih ?_
    simp only [List.length_cons]
    omega
  | case4 a as b bs hne ih1 ih2 ih3 =>
    simp only [levenshteinDistance, if_neg hne]
    refine le_trans (min_le_left _ _) ?_
    simp only [List.length_cons]
    omega

theorem levenshteinDistance_eq_zero_iff (a b : List Char) :
    levenshteinDistance a b = 0 ↔ a = b := by
  induction a, b using levenshteinDistance.induct with
  | case1 b => simp [levenshteinDistance, List.length_eq_zero, eq_comm]
  | case2 a as => simp [levenshteinDistance]
  | case3 as b bs ih => simp [levenshteinDistance, ih]
  | case4 a as b bs hne ih1 ih2 ih3 =>
    simp only [levenshteinDistance, if_neg hne]
    constructor
    · intro h
      exfalso
      omega
    · intro h
      simp only [List.cons.injEq] at h
      exact absurd h.1 hne

/-- `computeTitleSimilarity` from deduplication.ts: normalized Levenshtein
similarity, `1` when the normalized titles coincide (in particular when both
are empty), else `1 - distance / maxLen`. -/
def computeTitleSimilarity (title1 title2 : String) : ℚ :=
  if normalizeContent title1 = normalizeContent title2 then 1
  else if max (normalizeContent title1).length (normalizeContent title2).length = 0 then 1
  else
    1 - (levenshteinDistance (normalizeContent title1).data (normalizeContent title2).data : ℚ) /
      ((max (normalizeContent title1).length (normalizeContent title2).length : ℕ) : ℚ)

theorem string_eq_of_data_eq {s t : String} (h : s.data = t.data) : s = t := by
  cases s
  cases t
  simp_all

/-- C10: `computeTitleSimilarity` always lies in the closed interval
`[0, 1]`, and it equals `1` exactly when the two titles normalize to the
same string. The interval bound rests on the Levenshtein distance never
exceeding the length of the longer normalized title. -/
theorem computeTitleSimilarity_mem_unit_and_eq_one_iff (title1 title2 : String) :
    0 ≤ computeTitleSimilarity title1 title2 ∧
      computeTitleSimilarity title1 title2 ≤ 1 ∧
      (computeTitleSimilarity title1 title2 = 1 ↔
        normalizeContent title1 = normalizeContent title2) := by
  unfold computeTitleSimilarity
  by_cases heq : normalizeContent title1 = normalizeContent title2
  · rw [if_pos heq]
    exact ⟨zero_le_one, le_refl 1, iff_of_true rfl heq⟩
  · rw [if_neg heq]
    have hdata : (normalizeContent title1).data ≠ (normalizeContent title2).data := by
      intro h
      exact heq (string_eq_of_data_eq h)
    by_cases hml : max (normalizeContent title1).length (normalizeContent title2).length = 0
    · exfalso
      apply hdata
      have h1 : (normalizeContent title1).data.length = 0 := by
        have : (normalizeContent title1).length = 0 := by omega
        exact this
      have h2 : (normalizeContent title2).data.length = 0 := by
        have : (normalizeContent title2).length = 0 := by omega
        exact this
      rw [List.eq_nil_of_length_eq_zero h1, List.eq_nil_of_length_eq_zero h2]
    · rw [if_neg hml]
      set d : ℕ := levenshteinDistance (normalizeContent title1).data
        (normalizeContent title2).data with hd
      set m : ℕ := max (normalizeContent title1).length (normalizeContent title2).length
        with hm
      have hdm : d ≤ m := by
        rw [hd, hm]
        exact levenshteinDistance_le_max (normalizeContent title1).data
          (normalizeContent title2).data
      have hdpos : 1 ≤ d := by
        rcases Nat.eq_zero_or_pos d with h0 | h1
        · exact absurd ((levenshteinDistance_eq_zero_iff _ _).mp h0) hdata
        · exact h1
      have hmpos : (0 : ℚ) < (m : ℚ) := by
        exact_mod_cast Nat.pos_of_ne_zero hml
      have hdivle : (d : ℚ) / (m : ℚ) ≤ 1 := by
        rw [div_le_one hmpos]
        exact_mod_cast hdm
      have hdivpos : (0 : ℚ) < (d : ℚ) / (m : ℚ) := by
        apply div_pos _ hmpos
        exact_mod_cast hdpos
      refine ⟨by linarith, by linarith, ?_⟩
      constructor
      · intro h
        exfalso
        have : (d : ℚ) / (m : ℚ) = 0 := by linarith
        exact absurd this (ne_of_gt hdivpos)
      · intro h
        exact absurd h heq

/-! ### Knowledge data model (src/types.ts, table promoted_knowledge) -/

inductive KnowledgeType
  | decision
  | pattern
  | error_resolved
  | milestone
  deriving DecidableEq

/-- A row of the `promoted_knowledge` table / the `PromotedKnowledge` record
of types.ts. SQL `NULL` / TS `undefined` is `none`. `usage_count` is
`NOT NULL` in the schema but optional on the TS record (`usageCount ?? 0` at
use sites), hence `Option Nat`. -/
structure PromotedKnowledge where
  knowledgeId : String
  projectPath : String
  sessionId : Option String
  sourceEventId : Option String
  title : String
  content : String
  knowledgeType : KnowledgeType
  tags : List String
  createdAt : String
  syncedAt : Option String
  synapseKnowledgeId : Option String
  branch : Option String
  contentHash : Option String
  usageCount : Option Nat
  supersededBy : Option String
  deriving DecidableEq

inductive MatchType
  | exact_hash
  | title_match
  deriving DecidableEq

/-- `DuplicateCandidate` from types.ts. -/
structure DuplicateCandidate where
  existingKnowledge : PromotedKnowledge
  similarityScore : ℚ
  matchType : MatchType
  deriving DecidableEq

/-- `findDuplicates` from deduplication.ts. The table is the
`promoted_knowledge` rows in rowid order; the first `SELECT ... .get()`
(no ORDER BY) is `List.find?`; the final `.sort((a, b) =>
b.similarityScore - a.similarityScore)` is the stable descending sort. -/
def findDuplicates (sha256hex : String → String) (table : List PromotedKnowledge)
    (projectPath title content : String) : List DuplicateCandidate :=
  match table.find? (fun r => decide (r.projectPath = projectPath ∧
      r.contentHash = some (computeContentHash sha256hex content) ∧
      r.supersededBy = none)) with
  | some exactMatch => [⟨exactMatch, 1, MatchType.exact_hash⟩]
  | none =>
    sortByKeyDesc (fun c => c.similarityScore)
      ((table.filter (fun r => decide (r.projectPath = projectPath ∧
          r.supersededBy = none))).filterMap
        (fun candidate =>
          if (0.85 : ℚ) ≤ computeTitleSimilarity title candidate.title then
            some ⟨candidate, computeTitleSimilarity title candidate.title,
              MatchType.title_match⟩
          else none))

/-- `markSuperseded` from deduplication.ts: `UPDATE promoted_knowledge SET
superseded_by = new WHERE knowledge_id = old`. -/
def markSuperseded (table : List PromotedKnowledge)
    (oldKnowledgeId newKnowledgeId : String) : List PromotedKnowledge :=
  table.map (fun r =>
    if r.knowledgeId = oldKnowledgeId then
      { r with supersededBy := some newKnowledgeId }
    else r)

/-! ### Knowledge store (src/storage/knowledge.ts) -/

/-- `insertKnowledge` from knowledge.ts. The INSERT lists the columns
explicitly: `synced_at`, `synapse_knowledge_id` and `superseded_by` are not
among them and start NULL, and `usage_count` is written as
`knowledge.usageCount ?? 0`. -/
def insertKnowledge (table : List PromotedKnowledge)
    (knowledge : PromotedKnowledge) : List PromotedKnowledge :=
  table ++ [{ knowledge with
    syncedAt := none
    synapseKnowledgeId := none
    usageCount := some (knowledge.usageCount.getD 0)
    supersededBy := none }]

/-- `getProjectKnowledge` from knowledge.ts: project scope, optional type
filter, `superseded_by IS NULL`, `ORDER BY created_at DESC LIMIT limit`. -/
def getProjectKnowledge (table : List PromotedKnowledge) (projectPath : String)
    (knowledgeType : Option KnowledgeType) (limit : Nat) : List PromotedKnowledge :=
  match knowledgeType with
  | some kt =>
    (sortByKeyDesc (fun r => r.createdAt)
      (table.filter (fun r => decide (r.projectPath = projectPath ∧
        r.knowledgeType = kt ∧ r.supersededBy = none)))).take limit
  | none =>
    (sortByKeyDesc (fun r => r.createdAt)
      (table.filter (fun r => decide (r.projectPath = projectPath ∧
        r.supersededBy = none)))).take limit

/-- `getKnowledgeById` from knowledge.ts: point lookup by id, with no
`superseded_by` condition. -/
def getKnowledgeById (table : List PromotedKnowledge)
    (knowledgeId : String) : Option PromotedKnowledge :=
  table.find? (fun r => decide (r.knowledgeId = knowledgeId))

/-- `getUnsyncedKnowledge` from knowledge.ts: `synced_at IS NULL AND
superseded_by IS NULL`, `ORDER BY created_at ASC`. -/
def getUnsyncedKnowledge (table : List PromotedKnowledge)
    (projectPath : String) : List PromotedKnowledge :=
  sortByKeyAsc (fun r => r.createdAt)
    (table.filter (fun r => decide (r.projectPath = projectPath ∧
      r.syncedAt = none ∧ r.supersededBy = none)))

/-- `getKnowledgeCount` from knowledge.ts: total and per-type counts over
non-superseded rows of the project. -/
def getKnowledgeCount (table : List PromotedKnowledge) (projectPath : String) :
    Nat × (KnowledgeType → Nat) :=
  (table.countP (fun r => decide (r.projectPath = projectPath ∧
      r.supersededBy = none)),
   fun kt => table.countP (fun r => decide (r.projectPath = projectPath ∧
      r.supersededBy = none ∧ r.knowledgeType = kt)))

/-- C3: `findDuplicates`, exact-hash branch: when some non-superseded item of
the project stores the digest of the normalized candidate content, the result
is exactly one candidate — such an item, with similarity 1.0 and match type
exact-hash. Title branch: otherwise the result consists exactly of the
non-superseded project items whose title similarity is ≥ 0.85, each reported
with match type title-match and its computed similarity, sorted by descending
similarity. -/
theorem findDuplicates_spec (sha256hex : String → String)
    (table : List PromotedKnowledge) (projectPath title content : String) :
    ((∃ r ∈ table, r.projectPath = projectPath ∧
        r.contentHash = some (computeContentHash sha256hex content) ∧
        r.supersededBy = none) →
      ∃ r, findDuplicates sha256hex table projectPath title content =
          [⟨r, 1, MatchType.exact_hash⟩] ∧
        r ∈ table ∧ r.projectPath = projectPath ∧
        r.contentHash = some (computeContentHash sha256hex content) ∧
        r.supersededBy = none) ∧
    ((¬ ∃ r ∈ table, r.projectPath = projectPath ∧
        r.contentHash = some (computeContentHash sha256hex content) ∧
        r.supersededBy = none) →
      (∀ c ∈ findDuplicates sha256hex table projectPath title content,
          c.matchType = MatchType.title_match ∧
          c.similarityScore = computeTitleSimilarity title c.existingKnowledge.title ∧
          (0.85 : ℚ) ≤ c.similarityScore ∧
          c.existingKnowledge ∈ table ∧
          c.existingKnowledge.projectPath = projectPath ∧
          c.existingKnowledge.supersededBy = none) ∧
      (∀ r ∈ table, r.projectPath = projectPath → r.supersededBy = none →
          (0.85 : ℚ) ≤ computeTitleSimilarity title r.title →
          ∃ c ∈ findDuplicates sha256hex table projectPath title content,
            c.existingKnowledge = r) ∧
      (findDuplicates sha256hex table projectPath title content).Sorted
        (fun c1 c2 => c2.similarityScore ≤ c1.similarityScore)) := by
  constructor
  · intro hex
    match hfind : table.find? (fun r => decide (r.projectPath = projectPath ∧
        r.contentHash = some (computeContentHash sha256hex content) ∧
        r.supersededBy = none)) with
    | some r =>
      refine ⟨r, ?_, List.mem_of_find?_eq_some hfind, ?_⟩
      · unfold findDuplicates
        rw [hfind]
      · have := List.find?_some hfind
        simpa using this
    | none =>
      exfalso
      obtain ⟨r, hr, hprops⟩ := hex
      have := List.find?_eq_none.mp hfind r hr
      simp only [decide_eq_true_eq] at this
      exact this hprops
  · intro hnotex
    have hfind : table.find? (fun r => decide (r.projectPath = projectPath ∧
        r.contentHash = some (computeContentHash sha256hex content) ∧
        r.supersededBy = none)) = none := by
      apply List.find?_eq_none.mpr
      intro r hr
      simp only [decide_eq_true_eq]
      intro hprops
      exact hnotex ⟨r, hr, hprops⟩
    have hdup : findDuplicates sha256hex table projectPath title content =
        sortByKeyDesc (fun c => c.similarityScore)
          ((table.filter (fun r => decide (r.projectPath = projectPath ∧
              r.supersededBy = none))).filterMap
            (fun candidate =>
              if (0.85 : ℚ) ≤ computeTitleSimilarity title candidate.title then
                some ⟨candidate, computeTitleSimilarity title candidate.title,
                  MatchType.title_match⟩
              else none)) := by
      unfold findDuplicates
      rw [hfind]
    refine ⟨?_, ?_, ?_⟩
    · intro c hc
      rw [hdup] at hc
      have hc2 := (sortByKeyDesc_perm (fun c : DuplicateCandidate => c.similarityScore) _).mem_iff.mp hc
      obtain ⟨cand, hcand, hsome⟩ := List.mem_filterMap.mp hc2
      obtain ⟨hcandmem, hcandpred⟩ := List.mem_filter.mp hcand
      simp only [decide_eq_true_eq] at hcandpred
      by_cases hsim : (0.85 : ℚ) ≤ computeTitleSimilarity title cand.title
      · rw [if_pos hsim] at hsome
        obtain rfl := Option.some.inj hsome
        exact ⟨rfl, rfl, hsim, hcandmem, hcandpred.1, hcandpred.2⟩
      · rw [if_neg hsim] at hsome
        exact absurd hsome (Option.noConfusion)
    · intro r hr hproj hsup hsim
      refine ⟨⟨r, computeTitleSimilarity title r.title, MatchType.title_match⟩, ?_, rfl⟩
      rw [hdup]
      apply (sortByKeyDesc_perm (fun c : DuplicateCandidate => c.similarityScore) _).mem_iff.mpr
      apply List.mem_filterMap.mpr
      refine ⟨r, List.mem_filter.mpr ⟨hr, by simp [hproj, hsup]⟩, ?_⟩
      rw [if_pos hsim]
    · rw [hdup]
      exact sortByKeyDesc_sorted (fun c : DuplicateCandidate => c.similarityScore) _

/-- A concrete table for witnesses: one non-superseded item whose stored
content hash matches the (degenerate) digest used in the witness. -/
def demoKnowledgeA : PromotedKnowledge :=
  { knowledgeId := "k1"
    projectPath := "p"
    sessionId := none
    sourceEventId := none
    title := "Use JWT for authentication"
    content := "c1"
    knowledgeType := KnowledgeType.decision
    tags := []
    createdAt := "2024-01-01"
    syncedAt := none
    synapseKnowledgeId := none
    branch := none
    contentHash := some "h1"
    usageCount := some 0
    supersededBy := none }

/-- Witness for C3 at a concrete store: the hypothesis of the exact-hash
branch holds and the branch's conclusion follows from the theorem. -/
theorem findDuplicates_spec_witness :
    (∃ r ∈ [demoKnowledgeA], r.projectPath = "p" ∧
        r.contentHash = some (computeContentHash (fun _ => "h1") "c1") ∧
        r.supersededBy = none) ∧
    ∃ r, findDuplicates (fun _ => "h1") [demoKnowledgeA] "p" "t" "c1" =
        [⟨r, 1, MatchType.exact_hash⟩] ∧
      r ∈ [demoKnowledgeA] ∧ r.projectPath = "p" ∧
      r.contentHash = some (computeContentHash (fun _ => "h1") "c1") ∧
      r.supersededBy = none :=
  ⟨by decide, (findDuplicates_spec (fun _ => "h1") [demoKnowledgeA] "p" "t" "c1").1
    (by decide)⟩

/-- Filtering by `q` first does not change a `filter p` when `p` implies `q`. -/
theorem filter_sub_filter {α : Type} (p q : α → Bool) (l : List α)
    (h : ∀ a, p a = true → q a = true) :
    (l.filter q).filter p = l.filter p := by
  rw [List.filter_filter]
  apply List.filter_congr
  intro a _
  by_cases hp : p a = true
  · simp [hp, h a hp]
  · simp only [Bool.not_eq_true] at hp
    simp [hp]

/-- Filtering by `q` first does not change a `find? p` when `p` implies `q`. -/
theorem find?_filter_sub {α : Type} (p q : α → Bool) (l : List α)
    (h : ∀ a, p a = true → q a = true) :
    (l.filter q).find? p = l.find? p := by
  induction l with
  | nil => rfl
  | cons a as ih =>
    by_cases hq : q a = true
    · rw [List.filter_cons, if_pos hq]
      by_cases hp : p a = true
      · rw [List.find?_cons_of_pos _ hp, List.find?_cons_of_pos _ hp]
      · simp only [Bool.not_eq_true] at hp
        rw [List.find?_cons_of_neg _ (by simp [hp]), List.find?_cons_of_neg _ (by simp [hp])]
        exact ih
    · rw [List.filter_cons, if_neg hq]
      have hp : ¬ p a = true := fun hpa => hq (h a hpa)
      rw [ih, List.find?_cons_of_neg _ (by simpa using hp)]

/-- Filtering by `q` first does not change a `countP p` when `p` implies `q`. -/
theorem countP_filter_sub {α : Type} (p q : α → Bool) (l : List α)
    (h : ∀ a, p a = true → q a = true) :
    (l.filter q).countP p = l.countP p := by
  rw [List.countP_filter]
  apply List.countP_congr
  intro a _
  by_cases hp : p a = true
  · simp [hp, h a hp]
  · simp only [Bool.not_eq_true] at hp
    simp [hp]

/-- C9 (amended): an item with a non-null superseded-by is invisible to
`getProjectKnowledge`, `getUnsyncedKnowledge`, `getKnowledgeCount` and
`findDuplicates`: none of them returns or counts such an item, and each
gives the same answer on the table with all superseded rows deleted. (The
point lookup `getKnowledgeById` is NOT in this list: it filters only on the
id.) The queries read the table without modifying it, so the superseded item
itself stays stored unchanged. -/
theorem superseded_items_invisible (sha256hex : String → String)
    (table : List PromotedKnowledge) (projectPath title content : String)
    (knowledgeType : Option KnowledgeType) (limit : Nat) :
    (∀ k ∈ getProjectKnowledge table projectPath knowledgeType limit,
        k.supersededBy = none) ∧
    (∀ k ∈ getUnsyncedKnowledge table projectPath, k.supersededBy = none) ∧
    (∀ c ∈ findDuplicates sha256hex table projectPath title content,
        c.existingKnowledge.supersededBy = none) ∧
    getProjectKnowledge table projectPath knowledgeType limit =
      getProjectKnowledge (table.filter (fun r => decide (r.supersededBy = none)))
        projectPath knowledgeType limit ∧
    getUnsyncedKnowledge table projectPath =
      getUnsyncedKnowledge (table.filter (fun r => decide (r.supersededBy = none)))
        projectPath ∧
    getKnowledgeCount table projectPath =
      getKnowledgeCount (table.filter (fun r => decide (r.supersededBy = none)))
        projectPath ∧
    findDuplicates sha256hex table projectPath title content =
      findDuplicates sha256hex (table.filter (fun r => decide (r.supersededBy = none)))
        projectPath title content := by
  refine ⟨?_, ?_, ?_, ?_, ?_, ?_, ?_⟩
  · intro k hk
    unfold getProjectKnowledge at hk
    cases knowledgeType with
    | some kt =>
      have hk2 := List.take_subset _ _ hk
      have hk3 := (sortByKeyDesc_perm (fun r : PromotedKnowledge => r.createdAt) _).mem_iff.mp hk2
      have := (List.mem_filter.mp hk3).2
      simp only [decide_eq_true_eq] at this
      exact this.2.2
    | none =>
      have hk2 := List.take_subset _ _ hk
      have hk3 := (sortByKeyDesc_perm (fun r : PromotedKnowledge => r.createdAt) _).mem_iff.mp hk2
      have := (List.mem_filter.mp hk3).2
      simp only [decide_eq_true_eq] at this
      exact this.2
  · intro k hk
    unfold getUnsyncedKnowledge sortByKeyAsc at hk
    have hk2 := (List.perm_insertionSort _ _).mem_iff.mp hk
    have := (List.mem_filter.mp hk2).2
    simp only [decide_eq_true_eq] at this
    exact this.2.2
  · intro c hc
    unfold findDuplicates at hc
    match hfind : table.find? (fun r => decide (r.projectPath = projectPath ∧
        r.contentHash = some (computeContentHash sha256hex content) ∧
        r.supersededBy = none)) with
    | some r =>
      rw [hfind] at hc
      have hp := List.find?_some hfind
      simp only [decide_eq_true_eq] at hp
      simp only [List.mem_singleton] at hc
      rw [hc]
      exact hp.2.2
    | none =>
      rw [hfind] at hc
      have hc2 := (sortByKeyDesc_perm
        (fun c : DuplicateCandidate => c.similarityScore) _).mem_iff.mp hc
      obtain ⟨cand, hcand, hsome⟩ := List.mem_filterMap.mp hc2
      have hpred := (List.mem_filter.mp hcand).2
      simp only [decide_eq_true_eq] at hpred
      by_cases hsim : (0.85 : ℚ) ≤ computeTitleSimilarity title cand.title
      · rw [if_pos hsim] at hsome
        obtain rfl := Option.some.inj hsome
        exact hpred.2
      · rw [if_neg hsim] at hsome
        exact absurd hsome (Option.noConfusion)
  · cases knowledgeType with
    | some kt =>
      simp only [getProjectKnowledge]
      rw [filter_sub_filter _ _ table]
      intro a
      simp only [decide_eq_true_eq]
      intro h
      exact h.2.2
    | none =>
      simp only [getProjectKnowledge]
      rw [filter_sub_filter _ _ table]
      intro a
      simp only [decide_eq_true_eq]
      intro h
      exact h.2
  · unfold getUnsyncedKnowledge
    rw [filter_sub_filter _ _ table]
    intro a
    simp only [decide_eq_true_eq]
    intro h
    exact h.2.2
  · unfold getKnowledgeCount
    refine Prod.ext ?_ ?_
    · show _ = (table.filter _).countP _
      rw [countP_filter_sub _ _ table]
      intro a
      simp only [decide_eq_true_eq]
      intro h
      exact h.2
    · funext kt
      show _ = (table.filter _).countP _
      rw [countP_filter_sub _ _ table]
      intro a
      simp only [decide_eq_true_eq]
      intro h
      exact h.2.1
  · unfold findDuplicates
    rw [find?_filter_sub _ _ table (by
      intro a
      simp only [decide_eq_true_eq]
      intro h
      exact h.2.2)]
    rw [filter_sub_filter _ _ table (by
      intro a
      simp only [decide_eq_true_eq]
      intro h
      exact h.2)]

/-- A superseded row, for the C9 counterexample. -/
def demoSupersededK : PromotedKnowledge :=
  { demoKnowledgeA with knowledgeId := "k1", supersededBy := some "k2" }

/-- C9 counterexample: the point lookup `getKnowledgeById` does return an
item whose superseded-by field is non-null — it filters only on the id. -/
theorem getKnowledgeById_returns_superseded_item :
    getKnowledgeById [demoSupersededK] "k1" = some demoSupersededK ∧
      demoSupersededK.supersededBy = some "k2" := by
  constructor
  · rfl
  · rfl

/-- Witness for C9 at a concrete store: the membership conjuncts applied to
the single visible item of a one-row table. -/
theorem superseded_items_invisible_witness :
    demoKnowledgeA ∈ getProjectKnowledge [demoKnowledgeA] "p" none 50 ∧
      demoKnowledgeA.supersededBy = none :=
  ⟨by decide,
   (superseded_items_invisible (fun _ => "h1") [demoKnowledgeA] "p" "t" "c1" none 50).1
     demoKnowledgeA (by decide)⟩

/-! ### Session data model (src/types.ts, table sessions) -/

inductive SessionStatus
  | active
  | completed
  | abandoned
  deriving DecidableEq

inductive AgentType
  | claude_code
  | cursor
  | aider
  | openclaw
  | unknown
  deriving DecidableEq

/-- A row of the `sessions` table / the `Session` record of types.ts.
`agentType` is optional on the TS record but written with `?? 'unknown'`
on insert, so the row always carries one. -/
structure Session where
  sessionId : String
  projectPath : String
  branch : String
  startedAt : String
  endedAt : Option String
  status : SessionStatus
  summary : Option String
  gitCommitStart : Option String
  gitCommitEnd : Option String
  agentType : AgentType
  agentVersion : Option String
  deriving DecidableEq

/-! ### Relevance ranking engine (src/context/scoring.ts)

`Math.log` and `new Date(x).getTime()` are runtime facilities: they enter as
the parameters `log : ℚ → ℚ` and `getTime : String → ℚ`, and the clock
`Date.now()` as `now : ℚ` (milliseconds). -/

/-- `computeBranchWeight` from scoring.ts. The source's first test is the JS
truthiness check `!itemBranch`, which is true for `undefined` and for the
empty string. -/
def computeBranchWeight (itemBranch : Option String) (currentBranch : String) : ℚ :=
  match itemBranch with
  | none => 0.5
  | some b =>
    if b = "" then 0.5
    else if b = currentBranch then 1
    else if b = "main" ∨ b = "master" then 0.7
    else 0.3

/-- `computeRecencyWeight` from scoring.ts: four-bucket step function of the
age in days. -/
def computeRecencyWeight (getTime : String → ℚ) (now : ℚ) (createdAt : String) : ℚ :=
  let daysSince := (now - getTime createdAt) / (1000 * 60 * 60 * 24)
  if daysSince < 1 then 1
  else if daysSince < 7 then 0.8
  else if daysSince < 30 then 0.5
  else 0.3

/-- `computeUsageWeight` from scoring.ts: `1.0 + Math.log(usageCount + 1) * 0.1`. -/
def computeUsageWeight (log : ℚ → ℚ) (usageCount : Nat) : ℚ :=
  1 + log ((usageCount : ℚ) + 1) * 0.1

/-- `ScoredKnowledge` from types.ts. -/
structure ScoredKnowledge where
  knowledge : PromotedKnowledge
  relevanceScore : ℚ
  branchWeight : ℚ
  recencyWeight : ℚ
  deriving DecidableEq

/-- `computeRelevanceScore` from scoring.ts, including its
`knowledge.usageCount ?? 0`. -/
def computeRelevanceScore (log : ℚ → ℚ) (getTime : String → ℚ) (now : ℚ)
    (knowledge : PromotedKnowledge) (currentBranch : String) : ScoredKnowledge :=
  let branchWeight := computeBranchWeight knowledge.branch currentBranch
  let recencyWeight := computeRecencyWeight getTime now knowledge.createdAt
  let usageWeight := computeUsageWeight log (knowledge.usageCount.getD 0)
  { knowledge := knowledge
    relevanceScore :=
      branchWeight * 0.4 + recencyWeight * 0.4 + (usageWeight - 1) * 0.2 + 0.2
    branchWeight := branchWeight
    recencyWeight := recencyWeight }

/-- `rankKnowledge` from scoring.ts: map to scores, then the stable
descending sort on `relevanceScore`. -/
def rankKnowledge (log : ℚ → ℚ) (getTime : String → ℚ) (now : ℚ)
    (items : List PromotedKnowledge) (currentBranch : String) : List ScoredKnowledge :=
  sortByKeyDesc (fun s => s.relevanceScore)
    (items.map (fun k => computeRelevanceScore log getTime now k currentBranch))

/-- The `{ session, score }` result of `scoreSession`. -/
structure ScoredSession where
  session : Session
  score : ℚ
  deriving DecidableEq

/-- `scoreSession` from scoring.ts: no usage signal, equal blend of branch
and recency, computed from the session's branch and start timestamp. -/
def scoreSession (getTime : String → ℚ) (now : ℚ) (session : Session)
    (currentBranch : String) : ScoredSession :=
  let branchWeight := computeBranchWeight (some session.branch) currentBranch
  let recencyWeight := computeRecencyWeight getTime now session.startedAt
  { session := session, score := branchWeight * 0.5 + recencyWeight * 0.5 }

/-- `rankSessions` from scoring.ts. -/
def rankSessions (getTime : String → ℚ) (now : ℚ) (sessions : List Session)
    (currentBranch : String) : List ScoredSession :=
  sortByKeyDesc (fun s => s.score)
    (sessions.map (fun s => scoreSession getTime now s currentBranch))

/-! ### C4: the scoring formulas, stated from the spec's words -/

/-- The branch weight exactly as claim C4 words it: 1.0 when the item's
branch equals the current branch, 0.7 for main/master, 0.3 for any other
named branch, 0.5 when the item carries no branch. -/
def claimBranchWeight (itemBranch : Option String) (currentBranch : String) : ℚ :=
  if itemBranch = some currentBranch then 1
  else if itemBranch = some "main" ∨ itemBranch = some "master" then 0.7
  else if itemBranch = none then 0.5
  else 0.3

/-- The branch weight as C4 must be amended: an empty-string branch is
treated like a missing branch (and this test comes before the
current-branch comparison), because the source tests JS truthiness. -/
def claimBranchWeightAmended (itemBranch : Option String) (currentBranch : String) : ℚ :=
  if itemBranch = none ∨ itemBranch = some "" then 0.5
  else if itemBranch = some currentBranch then 1
  else if itemBranch = some "main" ∨ itemBranch = some "master" then 0.7
  else 0.3

/-- The recency weight as claim C4 words it: a step function of the age in
days (a day being 86 400 000 ms). -/
def claimRecencyWeight (getTime : String → ℚ) (now : ℚ) (createdAt : String) : ℚ :=
  let ageDays := (now - getTime createdAt) / 86400000
  if ageDays < 1 then 1
  else if ageDays < 7 then 0.8
  else if ageDays < 30 then 0.5
  else 0.3

/-- The usage weight as claim C4 words it. -/
def claimUsageWeight (log : ℚ → ℚ) (usageCount : Nat) : ℚ :=
  1 + log ((usageCount : ℚ) + 1) * 0.1

theorem computeBranchWeight_eq_amended (itemBranch : Option String)
    (currentBranch : String) :
    computeBranchWeight itemBranch currentBranch =
      claimBranchWeightAmended itemBranch currentBranch := by
  cases itemBranch with
  | none => simp [computeBranchWeight, claimBranchWeightAmended]
  | some b =>
    simp only [computeBranchWeight, claimBranchWeightAmended]
    by_cases hb : b = "" <;>
      by_cases hc : b = currentBranch <;>
        by_cases hm : b = "main" <;>
          by_cases hmm : b = "master" <;>
            simp_all

/-- An item whose branch is the empty string, for the C4 counterexample. -/
def demoEmptyBranchK : PromotedKnowledge :=
  { demoKnowledgeA with branch := some "" }

/-- C4 counterexample: for an item whose branch is the empty string and an
empty current branch, the code's relevance score is 0.8 (branch weight 0.5,
the JS falsiness path) while the claim's formula gives 1.0 (branch weight
1.0, the equal-branch clause). -/
theorem computeRelevanceScore_claim_counterexample :
    (computeRelevanceScore (fun _ => 0) (fun _ => 0) 0 demoEmptyBranchK "").relevanceScore ≠
      claimBranchWeight demoEmptyBranchK.branch "" * 0.4 +
        claimRecencyWeight (fun _ => 0) 0 demoEmptyBranchK.createdAt * 0.4 +
        (claimUsageWeight (fun _ => 0) (demoEmptyBranchK.usageCount.getD 0) - 1) * 0.2 +
        0.2 := by
  norm_num [computeRelevanceScore, computeBranchWeight, computeRecencyWeight,
    computeUsageWeight, claimBranchWeight, claimRecencyWeight, claimUsageWeight,
    demoEmptyBranchK, demoKnowledgeA]

/-- C4 (amended): every knowledge relevance score equals
`branch*0.4 + recency*0.4 + (usage − 1)*0.2 + 0.2` and every session score
equals `branch*0.5 + recency*0.5`, with the branch weight as amended (empty
or missing branch → 0.5, tested first), the four-bucket recency step
function, and the logarithmic usage weight. -/
theorem relevance_scores_match_claim_formulas (log : ℚ → ℚ)
    (getTime : String → ℚ) (now : ℚ) (k : PromotedKnowledge) (s : Session)
    (currentBranch : String) :
    (computeRelevanceScore log getTime now k currentBranch).relevanceScore =
      claimBranchWeightAmended k.branch currentBranch * 0.4 +
        claimRecencyWeight getTime now k.createdAt * 0.4 +
        (claimUsageWeight log (k.usageCount.getD 0) - 1) * 0.2 + 0.2 ∧
    (scoreSession getTime now s currentBranch).score =
      claimBranchWeightAmended (some s.branch) currentBranch * 0.5 +
        claimRecencyWeight getTime now s.startedAt * 0.5 := by
  have hday : (1000 * 60 * 60 * 24 : ℚ) = 86400000 := by norm_num
  constructor
  · simp only [computeRelevanceScore, computeRecencyWeight, claimRecencyWeight,
      computeUsageWeight, claimUsageWeight, computeBranchWeight_eq_amended, hday]
  · simp only [scoreSession, computeRecencyWeight, claimRecencyWeight,
      computeBranchWeight_eq_amended, hday]

/-- C5: both ranking functions return a stable descending reordering of the
scored input: the underlying items are a permutation of the input (nothing
dropped or duplicated), scores are non-increasing, and restricting to any
single score value the output lists the scored items in input order. -/
theorem rank_functions_sort_spec (log : ℚ → ℚ) (getTime : String → ℚ)
    (now : ℚ) (items : List PromotedKnowledge) (sessions : List Session)
    (currentBranch : String) :
    ((rankKnowledge log getTime now items currentBranch).map
        (fun s => s.knowledge)).Perm items ∧
    (rankKnowledge log getTime now items currentBranch).Sorted
      (fun a b => b.relevanceScore ≤ a.relevanceScore) ∧
    (∀ q : ℚ, (rankKnowledge log getTime now items currentBranch).filter
        (fun a => decide (a.relevanceScore = q)) =
      (items.map (fun k => computeRelevanceScore log getTime now k currentBranch)).filter
        (fun a => decide (a.relevanceScore = q))) ∧
    ((rankSessions getTime now sessions currentBranch).map
        (fun s => s.session)).Perm sessions ∧
    (rankSessions getTime now sessions currentBranch).Sorted
      (fun a b => b.score ≤ a.score) ∧
    (∀ q : ℚ, (rankSessions getTime now sessions currentBranch).filter
        (fun a => decide (a.score = q)) =
      (sessions.map (fun s => scoreSession getTime now s currentBranch)).filter
        (fun a => decide (a.score = q))) := by
  refine ⟨?_, ?_, ?_, ?_, ?_, ?_⟩
  · have h1 := (sortByKeyDesc_perm (fun s : ScoredKnowledge => s.relevanceScore)
      (items.map (fun k => computeRelevanceScore log getTime now k currentBranch))).map
      (fun s => s.knowledge)
    rw [List.map_map] at h1
    have h2 : items.map ((fun s : ScoredKnowledge => s.knowledge) ∘
        (fun k => computeRelevanceScore log getTime now k currentBranch)) = items := by
      rw [show ((fun s : ScoredKnowledge => s.knowledge) ∘
          (fun k => computeRelevanceScore log getTime now k currentBranch)) = id from ?_]
      · exact List.map_id items
      · funext k
        rfl
    rw [h2] at h1
    exact h1
  · exact sortByKeyDesc_sorted (fun s : ScoredKnowledge => s.relevanceScore) _
  · intro q
    exact sortByKeyDesc_stable (fun s : ScoredKnowledge => s.relevanceScore) _ q
  · have h1 := (sortByKeyDesc_perm (fun s : ScoredSession => s.score)
      (sessions.map (fun s => scoreSession getTime now s currentBranch))).map
      (fun s => s.session)
    rw [List.map_map] at h1
    have h2 : sessions.map ((fun s : ScoredSession => s.session) ∘
        (fun s => scoreSession getTime now s currentBranch)) = sessions := by
      rw [show ((fun s : ScoredSession => s.session) ∘
          (fun s => scoreSession getTime now s currentBranch)) = id from ?_]
      · exact List.map_id sessions
      · funext s
        rfl
    rw [h2] at h1
    exact h1
  · exact sortByKeyDesc_sorted (fun s : ScoredSession => s.score) _
  · intro q
    exact sortByKeyDesc_stable (fun s : ScoredSession => s.score) _ q

/-! ### Session store (src/storage/sessions.ts) -/

/-- `createSession` from sessions.ts: the INSERT lists session_id,
project_path, branch, started_at, status, git_commit_start, agent_type and
agent_version; `ended_at`, `summary` and `git_commit_end` start NULL. -/
def createSession (table : List Session) (session : Session) : List Session :=
  table ++ [{ session with endedAt := none, summary := none, gitCommitEnd := none }]

/-- `getSession` from sessions.ts: point lookup by id. -/
def getSession (table : List Session) (sessionId : String) : Option Session :=
  table.find? (fun s => decide (s.sessionId = sessionId))

/-- `endSession` from sessions.ts: `UPDATE ... SET ended_at, status =
'completed', summary, git_commit_end WHERE session_id = ? AND status =
'active'`; when no row matched (`changes === 0`) it reports `undefined`,
otherwise it re-reads the session. -/
def endSession (table : List Session) (sessionId endedAt : String)
    (summary gitCommitEnd : Option String) : List Session × Option Session :=
  let updated := table.map (fun s =>
    if s.sessionId = sessionId ∧ s.status = SessionStatus.active then
      { s with
        endedAt := some endedAt
        status := SessionStatus.completed
        summary := summary
        gitCommitEnd := gitCommitEnd }
    else s)
  let changes := table.countP (fun s => decide (s.sessionId = sessionId ∧
    s.status = SessionStatus.active))
  if changes = 0 then (updated, none) else (updated, getSession updated sessionId)

/-- `abandonStaleSessions` from sessions.ts: bulk `UPDATE ... SET ended_at,
status = 'abandoned' WHERE project_path = ? AND status = 'active'`, returning
the number of changed rows. -/
def abandonStaleSessions (table : List Session) (projectPath endedAt : String) :
    List Session × Nat :=
  (table.map (fun s =>
      if s.projectPath = projectPath ∧ s.status = SessionStatus.active then
        { s with endedAt := some endedAt, status := SessionStatus.abandoned }
      else s),
   table.countP (fun s => decide (s.projectPath = projectPath ∧
      s.status = SessionStatus.active)))

/-- `getActiveSession` from sessions.ts: the most recently started active
session of the project (`ORDER BY started_at DESC LIMIT 1`). -/
def getActiveSession (table : List Session) (projectPath : String) : Option Session :=
  (sortByKeyDesc (fun s => s.startedAt)
    (table.filter (fun s => decide (s.projectPath = projectPath ∧
      s.status = SessionStatus.active)))).head?

/-- The storage effect of `handleSessionStart` (session-start.ts) on the
sessions table: abandon all stale actives of the project, then create the
new active session. Branch/commit/agent resolution and the ranking of the
returned context touch other state and are modelled separately. -/
def sessionStartCore (table : List Session) (projectPath now newSessionId branch : String)
    (gitCommit : Option String) (agentType : AgentType) (agentVersion : Option String) :
    List Session × Session :=
  let afterAbandon := (abandonStaleSessions table projectPath now).1
  let session : Session :=
    { sessionId := newSessionId
      projectPath := projectPath
      branch := branch
      startedAt := now
      endedAt := none
      status := SessionStatus.active
      summary := none
      gitCommitStart := gitCommit
      gitCommitEnd := none
      agentType := agentType
      agentVersion := agentVersion }
  (createSession afterAbandon session, session)

/-- The number of active sessions of a project — the measure of the
at-most-one-active invariant. -/
def activeCount (table : List Session) (projectPath : String) : Nat :=
  table.countP (fun s => decide (s.projectPath = projectPath ∧
    s.status = SessionStatus.active))

/-- The sessions table after `endSession` is always the mapped table,
whether or not a row matched. -/
theorem endSession_fst (table : List Session) (sessionId endedAt : String)
    (summary gitCommitEnd : Option String) :
    (endSession table sessionId endedAt summary gitCommitEnd).1 =
      table.map (fun s =>
        if s.sessionId = sessionId ∧ s.status = SessionStatus.active then
          { s with
            endedAt := some endedAt
            status := SessionStatus.completed
            summary := summary
            gitCommitEnd := gitCommitEnd }
        else s) := by
  simp only [endSession]
  split
  · rfl
  · rfl

/-- After abandoning the stale actives of a project, that project has no
active session left. -/
theorem abandonStaleSessions_activeCount_self (table : List Session)
    (projectPath endedAt : String) :
    activeCount (abandonStaleSessions table projectPath endedAt).1 projectPath = 0 := by
  unfold activeCount abandonStaleSessions
  rw [List.countP_map]
  apply List.countP_eq_zero.mpr
  intro s _
  simp only [Function.comp]
  by_cases hc : s.projectPath = projectPath ∧ s.status = SessionStatus.active
  · simp [hc]
  · simp [hc]

/-- Abandoning the stale actives of one project leaves every other
project's active count unchanged. -/
theorem abandonStaleSessions_activeCount_other (table : List Session)
    (projectPath endedAt p2 : String) (hne : p2 ≠ projectPath) :
    activeCount (abandonStaleSessions table projectPath endedAt).1 p2 =
      activeCount table p2 := by
  unfold activeCount abandonStaleSessions
  rw [List.countP_map]
  apply List.countP_congr
  intro s _
  simp only [Function.comp]
  by_cases hc : s.projectPath = projectPath ∧ s.status = SessionStatus.active
  · simp [hc, Ne.symm hne]
  · simp [hc]

/-- Abandoning never increases any project's active count. -/
theorem abandonStaleSessions_activeCount_le (table : List Session)
    (projectPath endedAt p2 : String) :
    activeCount (abandonStaleSessions table projectPath endedAt).1 p2 ≤
      activeCount table p2 := by
  unfold activeCount abandonStaleSessions
  rw [List.countP_map]
  apply List.countP_mono_left
  intro s _
  simp only [Function.comp]
  by_cases hc : s.projectPath = projectPath ∧ s.status = SessionStatus.active
  · simp [hc]
  · simp [hc]

/-- Ending a session never increases any project's active count. -/
theorem endSession_activeCount_le (table : List Session) (sessionId endedAt : String)
    (summary gitCommitEnd : Option String) (p2 : String) :
    activeCount (endSession table sessionId endedAt summary gitCommitEnd).1 p2 ≤
      activeCount table p2 := by
  rw [endSession_fst]
  unfold activeCount
  rw [List.countP_map]
  apply List.countP_mono_left
  intro s _
  simp only [Function.comp]
  by_cases hc : s.sessionId = sessionId ∧ s.status = SessionStatus.active
  · simp [hc]
  · simp [hc]

/-- C2: session_start abandons every previously active session of the
project and creates exactly one new active session: afterwards the project
has exactly one active session, `getActiveSession` returns precisely the
new one, other projects' active counts are untouched, and the other
status-changing operations (`endSession`, `abandonStaleSessions`) never
increase an active count — so every operation preserves the at-most-one-
active-per-project invariant. -/
theorem session_start_unique_active (table : List Session)
    (projectPath now newSessionId branch : String) (gitCommit : Option String)
    (agentType : AgentType) (agentVersion : Option String) :
    activeCount (sessionStartCore table projectPath now newSessionId branch
        gitCommit agentType agentVersion).1 projectPath = 1 ∧
    getActiveSession (sessionStartCore table projectPath now newSessionId branch
        gitCommit agentType agentVersion).1 projectPath =
      some (sessionStartCore table projectPath now newSessionId branch
        gitCommit agentType agentVersion).2 ∧
    (∀ p2, p2 ≠ projectPath →
      activeCount (sessionStartCore table projectPath now newSessionId branch
          gitCommit agentType agentVersion).1 p2 = activeCount table p2) ∧
    (∀ s ∈ table, s.projectPath = projectPath → s.status = SessionStatus.active →
      { s with endedAt := some now, status := SessionStatus.abandoned } ∈
        (sessionStartCore table projectPath now newSessionId branch
          gitCommit agentType agentVersion).1) ∧
    (∀ sid e su c p2,
      activeCount (endSession table sid e su c).1 p2 ≤ activeCount table p2) ∧
    (∀ p0 e p2,
      activeCount (abandonStaleSessions table p0 e).1 p2 ≤ activeCount table p2) := by
  have hT : (sessionStartCore table projectPath now newSessionId branch
      gitCommit agentType agentVersion).1 =
    (abandonStaleSessions table projectPath now).1 ++
      [(sessionStartCore table projectPath now newSessionId branch
        gitCommit agentType agentVersion).2] := rfl
  refine ⟨?_, ?_, ?_, ?_, ?_, ?_⟩
  · rw [hT]
    unfold activeCount
    rw [List.countP_append]
    have h0 := abandonStaleSessions_activeCount_self table projectPath now
    unfold activeCount at h0
    rw [h0]
    simp [sessionStartCore]
  · rw [hT]
    unfold getActiveSession
    rw [List.filter_append]
    have hnil : ((abandonStaleSessions table projectPath now).1).filter
        (fun s => decide (s.projectPath = projectPath ∧
          s.status = SessionStatus.active)) = [] := by
      apply List.filter_eq_nil_iff.mpr
      intro s hs
      have h0 := abandonStaleSessions_activeCount_self table projectPath now
      unfold activeCount at h0
      have := List.countP_eq_zero.mp h0 s hs
      simpa using this
    rw [hnil]
    simp [sessionStartCore, sortByKeyDesc]
  · intro p2 hne
    rw [hT]
    unfold activeCount
    rw [List.countP_append]
    have h1 := abandonStaleSessions_activeCount_other table projectPath now p2 hne
    unfold activeCount at h1
    rw [h1]
    simp [sessionStartCore, Ne.symm hne]
  · intro s hs hproj hact
    rw [hT]
    apply List.mem_append_left
    show _ ∈ (abandonStaleSessions table projectPath now).1
    have habt : (abandonStaleSessions table projectPath now).1 = table.map (fun s =>
        if s.projectPath = projectPath ∧ s.status = SessionStatus.active then
          { s with endedAt := some now, status := SessionStatus.abandoned }
        else s) := rfl
    rw [habt]
    apply List.mem_map.mpr
    refine ⟨s, hs, ?_⟩
    rw [if_pos ⟨hproj, hact⟩]
  · intro sid e su c p2
    exact endSession_activeCount_le table sid e su c p2
  · intro p0 e p2
    exact abandonStaleSessions_activeCount_le table p0 e p2

/-- An active session row, for the witnesses. -/
def demoSessionActive : Session :=
  { sessionId := "s1"
    projectPath := "p"
    branch := "main"
    startedAt := "t1"
    endedAt := none
    status := SessionStatus.active
    summary := none
    gitCommitStart := none
    gitCommitEnd := none
    agentType := AgentType.claude_code
    agentVersion := none }

/-- Witness for C2 at a concrete store: starting a second session while
`demoSessionActive` is active abandons it (the abandoned copy is in the
table) and an unrelated project's active count is untouched. -/
theorem session_start_unique_active_witness :
    ({ demoSessionActive with
        endedAt := some "t2"
        status := SessionStatus.abandoned } ∈
      (sessionStartCore [demoSessionActive] "p" "t2" "s2" "main" none
        AgentType.claude_code none).1) ∧
    activeCount (sessionStartCore [demoSessionActive] "p" "t2" "s2" "main" none
        AgentType.claude_code none).1 "q" = activeCount [demoSessionActive] "q" :=
  ⟨(session_start_unique_active [demoSessionActive] "p" "t2" "s2" "main" none
      AgentType.claude_code none).2.2.2.1 demoSessionActive (by decide) (by decide)
      (by decide),
   (session_start_unique_active [demoSessionActive] "p" "t2" "s2" "main" none
      AgentType.claude_code none).2.2.1 "q" (by decide)⟩

/-- C7: ending a session that is not currently active is a pure no-op
reported as not-found (`none`): the table is returned unchanged. In
particular a second `endSession` on the same id — after a first call
completed it — changes nothing and reports `none`, so the summary, end
timestamp, status and end commit stored by the first call survive. -/
theorem endSession_non_active_noop (table : List Session) (sessionId endedAt : String)
    (summary gitCommitEnd : Option String) :
    ((¬ ∃ s ∈ table, s.sessionId = sessionId ∧ s.status = SessionStatus.active) →
      endSession table sessionId endedAt summary gitCommitEnd = (table, none)) ∧
    (∀ endedAt2 summary2 gitCommitEnd2,
      endSession (endSession table sessionId endedAt summary gitCommitEnd).1
          sessionId endedAt2 summary2 gitCommitEnd2 =
        ((endSession table sessionId endedAt summary gitCommitEnd).1, none)) := by
  have noop : ∀ (t : List Session) (e2 : String) (su2 c2 : Option String),
      (∀ s ∈ t, ¬ (s.sessionId = sessionId ∧ s.status = SessionStatus.active)) →
      endSession t sessionId e2 su2 c2 = (t, none) := by
    intro t e2 su2 c2 hno
    have h0 : t.countP (fun s => decide (s.sessionId = sessionId ∧
        s.status = SessionStatus.active)) = 0 := by
      apply List.countP_eq_zero.mpr
      intro s hs
      simpa using hno s hs
    have hmap : t.map (fun s =>
        if s.sessionId = sessionId ∧ s.status = SessionStatus.active then
          { s with
            endedAt := some e2
            status := SessionStatus.completed
            summary := su2
            gitCommitEnd := c2 }
        else s) = t := by
      conv_rhs => rw [← List.map_id t]
      apply List.map_congr_left
      intro s hs
      rw [if_neg (hno s hs)]
      rfl
    simp only [endSession]
    rw [h0, hmap]
    simp
  constructor
  · intro hno
    apply noop
    intro s hs hcond
    exact hno ⟨s, hs, hcond⟩
  · intro e2 su2 c2
    apply noop
    intro s hs
    rw [endSession_fst] at hs
    obtain ⟨s0, _, rfl⟩ := List.mem_map.mp hs
    by_cases hc : s0.sessionId = sessionId ∧ s0.status = SessionStatus.active
    · rw [if_pos hc]
      intro hcontra
      exact absurd hcontra.2 (by simp)
    · rw [if_neg hc]
      exact hc

/-- A completed session row, for the C7 witness. -/
def demoSessionCompleted : Session :=
  { demoSessionActive with
    status := SessionStatus.completed
    endedAt := some "t2"
    summary := some "done" }

/-- Witness for C7 at a concrete store: ending the already-completed
session `s1` is a no-op reported as none. -/
theorem endSession_non_active_noop_witness :
    endSession [demoSessionCompleted] "s1" "t3" (some "late") none =
      ([demoSessionCompleted], none) :=
  (endSession_non_active_noop [demoSessionCompleted] "s1" "t3" (some "late") none).1
    (by decide)

/-! ### Events (src/types.ts, src/utils.ts, src/tools/record-event.ts) -/

inductive FileOperation
  | read
  | write
  | edit
  deriving DecidableEq

/-- The tagged `EventDetail` union of types.ts, one variant per kind. -/
inductive EventDetail
  | file_op (path : String) (operation : FileOperation)
  | tool_call (toolName : String) (params : Option String)
  | decision (title rationale : String)
  | pattern (description : String) (files : List String)
  | error_resolved (error resolution : String) (files : List String)
  | milestone (summary : String)
  deriving DecidableEq

inductive EventType
  | file_read
  | file_write
  | file_edit
  | tool_call
  | decision
  | pattern
  | error_resolved
  | milestone
  deriving DecidableEq

inductive EventCategory
  | read
  | search
  | edit
  | execute
  | agent
  | other
  deriving DecidableEq

/-- `deriveEventType` from utils.ts: a total function of the detail payload. -/
def deriveEventType : EventDetail → EventType
  | EventDetail.file_op _ op =>
    match op with
    | FileOperation.read => EventType.file_read
    | FileOperation.write => EventType.file_write
    | FileOperation.edit => EventType.file_edit
  | EventDetail.tool_call _ _ => EventType.tool_call
  | EventDetail.decision _ _ => EventType.decision
  | EventDetail.pattern _ _ => EventType.pattern
  | EventDetail.error_resolved _ _ _ => EventType.error_resolved
  | EventDetail.milestone _ => EventType.milestone

/-- `categorizeEvent` from utils.ts. -/
def categorizeEvent : EventType → EventCategory
  | EventType.file_read => EventCategory.read
  | EventType.file_write => EventCategory.edit
  | EventType.file_edit => EventCategory.edit
  | EventType.tool_call => EventCategory.execute
  | EventType.decision => EventCategory.other
  | EventType.pattern => EventCategory.other
  | EventType.error_resolved => EventCategory.other
  | EventType.milestone => EventCategory.other

/-- A row of `session_events` / `SessionEvent` of types.ts. -/
structure SessionEvent where
  eventId : String
  sessionId : String
  timestamp : String
  eventType : EventType
  category : EventCategory
  detail : EventDetail
  deriving DecidableEq

/-- `insertEvent` from events.ts: plain INSERT. -/
def insertEvent (events : List SessionEvent) (event : SessionEvent) : List SessionEvent :=
  events ++ [event]

inductive RecordEventOutcome
  | sessionNotFound
  | sessionNotActive (status : SessionStatus)
  | recorded (event : SessionEvent)
  deriving DecidableEq

/-- The storage effect of `handleRecordEvent` (record-event.ts). The
handler's parameter record contains a caller-supplied `eventType`, but the
destructuring reads only `sessionId` and `detail`; the stored type is
re-derived from the detail. The fresh id and timestamp are the external
inputs `eventId` and `timestamp`. -/
def handleRecordEvent (sessions : List Session) (events : List SessionEvent)
    (sessionId : String) (callerEventType : Option EventType) (detail : EventDetail)
    (eventId timestamp : String) : List SessionEvent × RecordEventOutcome :=
  match getSession sessions sessionId with
  | none => (events, RecordEventOutcome.sessionNotFound)
  | some session =>
    if session.status ≠ SessionStatus.active then
      (events, RecordEventOutcome.sessionNotActive session.status)
    else
      let resolvedEventType := deriveEventType detail
      let event : SessionEvent :=
        { eventId := eventId
          sessionId := sessionId
          timestamp := timestamp
          eventType := resolvedEventType
          category := categorizeEvent resolvedEventType
          detail := detail }
      (insertEvent events event, RecordEventOutcome.recorded event)

/-- The event category exactly as claim C8 words it: file_read → read;
file_write and file_edit → edit; tool_call → execute; decision, pattern,
error_resolved, milestone → other. -/
def claimCategory : EventType → EventCategory
  | EventType.file_read => EventCategory.read
  | EventType.file_write => EventCategory.edit
  | EventType.file_edit => EventCategory.edit
  | EventType.tool_call => EventCategory.execute
  | EventType.decision => EventCategory.other
  | EventType.pattern => EventCategory.other
  | EventType.error_resolved => EventCategory.other
  | EventType.milestone => EventCategory.other

/-- C8: the stored event is independent of the caller-supplied `eventType`
— two calls differing only in it give identical results — and a recorded
event always carries `deriveEventType detail` as its type and the category
of that derived type, with the category table as the claim lists it. -/
theorem record_event_ignores_caller_event_type (sessions : List Session)
    (events : List SessionEvent) (sessionId : String)
    (callerEventType1 callerEventType2 : Option EventType) (detail : EventDetail)
    (eventId timestamp : String) :
    handleRecordEvent sessions events sessionId callerEventType1 detail
        eventId timestamp =
      handleRecordEvent sessions events sessionId callerEventType2 detail
        eventId timestamp ∧
    (∀ e, (handleRecordEvent sessions events sessionId callerEventType1 detail
          eventId timestamp).2 = RecordEventOutcome.recorded e →
      e.eventType = deriveEventType detail ∧
        e.category = categorizeEvent (deriveEventType detail) ∧
        e.detail = detail) ∧
    (∀ t, categorizeEvent t = claimCategory t) := by
  refine ⟨rfl, ?_, ?_⟩
  · intro e he
    unfold handleRecordEvent at he
    split at he
    · exact absurd he (by simp)
    · split at he
      · exact absurd he (by simp)
      · simp only [RecordEventOutcome.recorded.injEq] at he
        rw [← he]
        exact ⟨rfl, rfl, rfl⟩
  · intro t
    cases t <;> rfl

/-- Witness for C8 at a concrete store: recording a decision event against
the active session stores it with the derived type and category. -/
theorem record_event_ignores_caller_event_type_witness :
    (handleRecordEvent [demoSessionActive] [] "s1" (some EventType.milestone)
        (EventDetail.decision "d" "r") "e1" "t2").2 =
      RecordEventOutcome.recorded
        { eventId := "e1"
          sessionId := "s1"
          timestamp := "t2"
          eventType := EventType.decision
          category := EventCategory.other
          detail := EventDetail.decision "d" "r" } ∧
    EventType.decision = deriveEventType (EventDetail.decision "d" "r") ∧
      EventCategory.other = categorizeEvent (deriveEventType (EventDetail.decision "d" "r")) ∧
      EventDetail.decision "d" "r" = EventDetail.decision "d" "r" :=
  ⟨by decide,
   (record_event_ignores_caller_event_type [demoSessionActive] [] "s1"
      (some EventType.milestone) (some EventType.file_read)
      (EventDetail.decision "d" "r") "e1" "t2").2.1
    { eventId := "e1"
      sessionId := "s1"
      timestamp := "t2"
      eventType := EventType.decision
      category := EventCategory.other
      detail := EventDetail.decision "d" "r" } (by decide)⟩

/-! ### Knowledge promotion (src/tools/knowledge.ts, handlePromoteKnowledge) -/

inductive PromoteOutcome
  | duplicateRefused (best : DuplicateCandidate)
  | promoted (item : PromotedKnowledge)
  deriving DecidableEq

/-- The knowledge record built by the insertion path of
`handlePromoteKnowledge`: content hash, branch pulled from the source
session when a session id was given (`if (sessionId)` is JS truthiness, so
an empty-string id also skips the lookup), usage counter 0. `newId` and
`createdAt` are the external id/clock inputs. -/
def promotedRecord (sha256hex : String → String) (sessions : List Session)
    (projectPath title content : String) (knowledgeType : KnowledgeType)
    (tags : List String) (sessionId sourceEventId : Option String)
    (newId createdAt : String) : PromotedKnowledge :=
  { knowledgeId := newId
    projectPath := projectPath
    sessionId := sessionId
    sourceEventId := sourceEventId
    title := title
    content := content
    knowledgeType := knowledgeType
    tags := tags
    createdAt := createdAt
    syncedAt := none
    synapseKnowledgeId := none
    branch :=
      match sessionId with
      | none => none
      | some sid =>
        if sid = "" then none
        else (getSession sessions sid).map (fun s => s.branch)
    contentHash := some (computeContentHash sha256hex content)
    usageCount := some 0
    supersededBy := none }

/-- The insertion path of `handlePromoteKnowledge`: build the record,
insert it, and mark the superseded item if one was named. -/
def promoteInsert (sha256hex : String → String)
    (knowledgeTable : List PromotedKnowledge) (sessions : List Session)
    (projectPath title content : String) (knowledgeType : KnowledgeType)
    (tags : List String) (sessionId sourceEventId : Option String)
    (supersedes : Option String) (newId createdAt : String) :
    List PromotedKnowledge × PromoteOutcome :=
  let knowledge := promotedRecord sha256hex sessions projectPath title content
    knowledgeType tags sessionId sourceEventId newId createdAt
  let afterInsert := insertKnowledge knowledgeTable knowledge
  let finalTable :=
    match supersedes with
    | some oldId => markSuperseded afterInsert oldId newId
    | none => afterInsert
  (finalTable, PromoteOutcome.promoted knowledge)

/-- `handlePromoteKnowledge` from knowledge.ts: unless the caller set
`allowDuplicate` (an optional boolean; absent is falsy), duplicates are
looked up first and a non-empty result refuses the promotion, reporting
`duplicates[0]`. -/
def handlePromoteKnowledge (sha256hex : String → String)
    (knowledgeTable : List PromotedKnowledge) (sessions : List Session)
    (projectPath title content : String) (knowledgeType : KnowledgeType)
    (tags : List String) (sessionId sourceEventId : Option String)
    (allowDuplicate : Bool) (supersedes : Option String)
    (newId createdAt : String) : List PromotedKnowledge × PromoteOutcome :=
  if allowDuplicate = true then
    promoteInsert sha256hex knowledgeTable sessions projectPath title content
      knowledgeType tags sessionId sourceEventId supersedes newId createdAt
  else
    match findDuplicates sha256hex knowledgeTable projectPath title content with
    | dup :: _ => (knowledgeTable, PromoteOutcome.duplicateRefused dup)
    | [] =>
      promoteInsert sha256hex knowledgeTable sessions projectPath title content
        knowledgeType tags sessionId sourceEventId supersedes newId createdAt

/-- The duplicate list is always sorted by descending similarity (the exact
branch is a singleton, the title branch is the stable descending sort). -/
theorem findDuplicates_sorted (sha256hex : String → String)
    (table : List PromotedKnowledge) (projectPath title content : String) :
    (findDuplicates sha256hex table projectPath title content).Sorted
      (fun c1 c2 => c2.similarityScore ≤ c1.similarityScore) := by
  unfold findDuplicates
  split
  · simp
  · exact sortByKeyDesc_sorted (fun c : DuplicateCandidate => c.similarityScore) _

/-- C6: without `allowDuplicate`, a non-empty duplicate-detection result
refuses the promotion — the store comes back unchanged and the reported
candidate is the first of the sorted list, hence of maximal similarity.
With `allowDuplicate`, the item is inserted unconditionally (the store
grows by exactly one row; with no supersession request it is exactly the
old store plus the new item at the end), whatever duplicates exist. -/
theorem promote_knowledge_duplicate_gate (sha256hex : String → String)
    (knowledgeTable : List PromotedKnowledge) (sessions : List Session)
    (projectPath title content : String) (knowledgeType : KnowledgeType)
    (tags : List String) (sessionId sourceEventId : Option String)
    (supersedes : Option String) (newId createdAt : String) :
    (∀ dup rest,
      findDuplicates sha256hex knowledgeTable projectPath title content = dup :: rest →
      handlePromoteKnowledge sha256hex knowledgeTable sessions projectPath title
          content knowledgeType tags sessionId sourceEventId false supersedes
          newId createdAt =
        (knowledgeTable, PromoteOutcome.duplicateRefused dup) ∧
      (∀ c ∈ findDuplicates sha256hex knowledgeTable projectPath title content,
        c.similarityScore ≤ dup.similarityScore)) ∧
    (∃ k, (handlePromoteKnowledge sha256hex knowledgeTable sessions projectPath
          title content knowledgeType tags sessionId sourceEventId true supersedes
          newId createdAt).2 = PromoteOutcome.promoted k ∧
      (handlePromoteKnowledge sha256hex knowledgeTable sessions projectPath
          title content knowledgeType tags sessionId sourceEventId true supersedes
          newId createdAt).1.length = knowledgeTable.length + 1 ∧
      k.knowledgeId = newId ∧ k.title = title ∧ k.content = content ∧
      k.contentHash = some (computeContentHash sha256hex content) ∧
      (supersedes = none →
        (handlePromoteKnowledge sha256hex knowledgeTable sessions projectPath
            title content knowledgeType tags sessionId sourceEventId true
            supersedes newId createdAt).1 = knowledgeTable ++ [k])) := by
  constructor
  · intro dup rest hd
    constructor
    · unfold handlePromoteKnowledge
      rw [if_neg (by simp), hd]
    · have hsorted := findDuplicates_sorted sha256hex knowledgeTable projectPath
        title content
      rw [hd] at hsorted
      rw [hd]
      intro c hc
      rcases List.mem_cons.mp hc with rfl | hmem
      · exact le_refl _
      · exact (List.sorted_cons.mp hsorted).1 c hmem
  · refine ⟨promotedRecord sha256hex sessions projectPath title content
      knowledgeType tags sessionId sourceEventId newId createdAt,
      ?_, ?_, rfl, rfl, rfl, rfl, ?_⟩
    · unfold handlePromoteKnowledge
      rw [if_pos rfl]
      rfl
    · unfold handlePromoteKnowledge
      rw [if_pos rfl]
      unfold promoteInsert
      dsimp only
      cases supersedes with
      | none => simp [insertKnowledge]
      | some oldId => simp [markSuperseded, insertKnowledge]
    · intro hnone
      subst hnone
      unfold handlePromoteKnowledge
      rw [if_pos rfl]
      rfl

/-- Witness for C6 at a concrete store: an exact-hash duplicate refuses the
promotion and reports it, with the store unchanged. -/
theorem promote_knowledge_duplicate_gate_witness :
    handlePromoteKnowledge (fun _ => "h1") [demoKnowledgeA] [] "p" "t" "c1"
        KnowledgeType.decision [] none none false none "k9" "t9" =
      ([demoKnowledgeA],
        PromoteOutcome.duplicateRefused ⟨demoKnowledgeA, 1, MatchType.exact_hash⟩) :=
  ((promote_knowledge_duplicate_gate (fun _ => "h1") [demoKnowledgeA] [] "p" "t"
      "c1" KnowledgeType.decision [] none none none "k9" "t9").1
    ⟨demoKnowledgeA, 1, MatchType.exact_hash⟩ [] (by decide)).1

/-! ### Schema manager (src/db.ts: MIGRATIONS, getSchemaVersion, runMigrations)

The SQL batches themselves are opaque here: executing the batch of version
`v` is abstracted to recording `v` in `applied`; whether `db.exec` succeeds
or throws is the parameter `execOk`. -/

def CURRENT_SCHEMA_VERSION : Nat := 3

/-- Whether the `MIGRATIONS` record holds a batch for version `v` (it
defines versions 1, 2 and 3). -/
def migrationDefined (v : Nat) : Bool :=
  decide (v = 1 ∨ v = 2 ∨ v = 3)

/-- The store as the schema manager sees it: the executed batches (in
execution order) and the append-only `schema_version` log. -/
structure MigDb where
  applied : List Nat
  versionLog : List Nat
  deriving DecidableEq

inductive MigError
  | missingMigration (v : Nat)
  | execFailed (v : Nat)
  deriving DecidableEq

/-- `getSchemaVersion` from db.ts: `SELECT version FROM schema_version ORDER
BY version DESC LIMIT 1` — the maximum logged number, 0 for an empty log. -/
def getSchemaVersion (db : MigDb) : Nat :=
  db.versionLog.foldr max 0

/-- One iteration of the migration for-loop: a missing batch throws, a
failing `db.exec` throws, otherwise the batch runs and the version number
is inserted into `schema_version`. -/
def stepMigration (execOk : Nat → Bool) (db : MigDb) (v : Nat) :
    Except MigError MigDb :=
  if migrationDefined v = false then Except.error (MigError.missingMigration v)
  else if execOk v = false then Except.error (MigError.execFailed v)
  else Except.ok { applied := db.applied ++ [v], versionLog := db.versionLog ++ [v] }

/-- The body of the `db.transaction(() => { for ... })` closure: the steps
in ascending order, stopping at the first throw. -/
def migrateRange (execOk : Nat → Bool) (db : MigDb) : List Nat → Except MigError MigDb
  | [] => Except.ok db
  | v :: rest =>
    match stepMigration execOk db v with
    | Except.error e => Except.error e
    | Except.ok db2 => migrateRange execOk db2 rest

/-- `runMigrations` from db.ts: read the current version, then run the loop
over `currentVersion+1 .. CURRENT_SCHEMA_VERSION` inside ONE better-sqlite3
transaction: a throw anywhere rolls the whole run back (store unchanged,
error propagated), otherwise everything commits. -/
def runMigrations (execOk : Nat → Bool) (db : MigDb) : MigDb × Option MigError :=
  match migrateRange execOk db
      (List.range' (getSchemaVersion db + 1)
        (CURRENT_SCHEMA_VERSION - getSchemaVersion db)) with
  | Except.ok db2 => (db2, none)
  | Except.error e => (db, some e)

theorem stepMigration_ok {execOk : Nat → Bool} {db db2 : MigDb} {v : Nat}
    (h : stepMigration execOk db v = Except.ok db2) :
    db2 = { applied := db.applied ++ [v], versionLog := db.versionLog ++ [v] } := by
  unfold stepMigration at h
  split at h
  · exact absurd h (by simp)
  · split at h
    · exact absurd h (by simp)
    · exact (Except.ok.inj h).symm

theorem migrateRange_ok {execOk : Nat → Bool} :
    ∀ (vs : List Nat) (db db2 : MigDb), migrateRange execOk db vs = Except.ok db2 →
      db2.versionLog = db.versionLog ++ vs ∧ db2.applied = db.applied ++ vs := by
  intro vs
  induction vs with
  | nil =>
    intro db db2 h
    obtain rfl := Except.ok.inj h
    simp
  | cons v rest ih =>
    intro db db2 h
    unfold migrateRange at h
    split at h
    · exact absurd h (by simp)
    · next dbm hstep =>
      obtain rfl := stepMigration_ok hstep
      obtain ⟨h1, h2⟩ := ih _ db2 h
      constructor
      · rw [h1]
        simp
      · rw [h2]
        simp

/-- C1 counterexample: on a version-0 store whose migration 3 fails, the
code commits NOTHING — migrations 1 and 2 ran inside the same single
transaction as 3 and are rolled back, so their numbers are absent from the
version log — whereas the claim (one transaction per version step) requires
1 and 2 to remain logged. -/
theorem runMigrations_whole_run_rollback_counterexample :
    runMigrations (fun v => decide (v ≠ 3)) ⟨[], []⟩ =
      (⟨[], []⟩, some (MigError.execFailed 3)) ∧
    (runMigrations (fun v => decide (v ≠ 3)) ⟨[], []⟩).1.versionLog = [] := by
  constructor
  · rfl
  · rfl

/-- C1 (amended): from any version `v < 3`, opening the store applies
migrations `v+1 .. 3` in strictly ascending order within one single atomic
transaction that also logs each number: on success all of them are applied
and appended to the version log in ascending order; on a failure anywhere
the entire run rolls back — the failing migration is not applied partially,
and no migration of the run (not even an earlier, succeeded one) remains
committed or logged. -/
theorem runMigrations_single_transaction (execOk : Nat → Bool) (db : MigDb)
    (v : Nat) (hv : getSchemaVersion db = v) (hlt : v < 3) :
    ((runMigrations execOk db).2 = none →
      (runMigrations execOk db).1.versionLog =
        db.versionLog ++ List.range' (v + 1) (3 - v) ∧
      (runMigrations execOk db).1.applied =
        db.applied ++ List.range' (v + 1) (3 - v) ∧
      (List.range' (v + 1) (3 - v)).Sorted (· < ·)) ∧
    (∀ e, (runMigrations execOk db).2 = some e → (runMigrations execOk db).1 = db) := by
  have hsorted : (List.range' (v + 1) (3 - v)).Sorted (· < ·) := by
    apply List.Pairwise.sublist (List.Sublist.refl _)
    exact List.pairwise_lt_range' _ _
  unfold runMigrations
  rw [hv]
  match hrun : migrateRange execOk db
      (List.range' (v + 1) (CURRENT_SCHEMA_VERSION - v)) with
  | Except.ok db2 =>
    constructor
    · intro _
      obtain ⟨h1, h2⟩ := migrateRange_ok _ db db2 hrun
      exact ⟨h1, h2, hsorted⟩
    · intro e he
      exact absurd he (by simp)
  | Except.error e0 =>
    constructor
    · intro hnone
      exact absurd hnone (by simp)
    · intro e _
      rfl

/-- Witness for C1 at a concrete store: from version 0 with every batch
succeeding, the run commits and logs 1, 2, 3 in order. -/
theorem runMigrations_single_transaction_witness :
    getSchemaVersion ⟨[], []⟩ = 0 ∧
    (runMigrations (fun _ => true) ⟨[], []⟩).2 = none ∧
    (runMigrations (fun _ => true) ⟨[], []⟩).1.versionLog =
      (MigDb.mk [] []).versionLog ++ List.range' (0 + 1) (3 - 0) :=
  ⟨rfl, rfl,
   ((runMigrations_single_transaction (fun _ => true) ⟨[], []⟩ 0 rfl
      (by decide)).1 rfl).1⟩

end SynapseMemory
